import Mathlib

/-!
Verification of the LabNation SmartScope USB driver script
(src/hardware/labnation-smartscope/lnss.hack.py), shallowly embedded.

USB I/O is modelled as an explicit event trace: `Ev.cw frame` is one bulk
write of `frame` to the command-out endpoint, `Ev.cr n` is one bulk read
of `n` bytes from the command-in endpoint, and `Ev.clearHalt ep` is a
CLEAR_FEATURE(ENDPOINT_HALT) control transfer.  Functions that consume a
response take the 16-byte response contents as an explicit `resp` argument
and return their Python result next to their trace.  A Python exception
(IndexError, the explicit raise in get_acquisition, the early return in
get_rom, the raise in REG2HREG) is modelled as `none`.
-/

namespace LNSS

/-- Command marker byte (HEADER_CMD_BYTE = 0xC0 in the script). -/
def HEADER_CMD_BYTE : Nat := 0xC0

/-- Response marker byte (HEADER_RESPONSE_BYTE = 0xAD). -/
def HEADER_RESPONSE_BYTE : Nat := 0xAD

/-- Upper bound used by get_rom (FLASH_USER_ADDRESS_MASK = 0x0FFF). -/
def FLASH_USER_ADDRESS_MASK : Nat := 0x0FFF

namespace PIC_CMDS

def PIC_VERSION : Nat := 1

def PIC_WRITE : Nat := 2

def PIC_READ : Nat := 3

def PIC_RESET : Nat := 4

def PIC_BOOTLOADER : Nat := 5

def EEPROM_READ : Nat := 6

def EEPROM_WRITE : Nat := 7

def FLASH_ROM_READ : Nat := 8

def FLASH_ROM_WRITE : Nat := 9

def I2C_WRITE : Nat := 10

def I2C_READ : Nat := 11

def PROGRAM_FPGA_START : Nat := 12

def PROGRAM_FPGA_END : Nat := 13

def I2C_WRITE_START : Nat := 14

def I2C_WRITE_BULK : Nat := 15

def I2C_WRITE_STOP : Nat := 16

end PIC_CMDS

/-- The two FPGA I2C targets used by the script. -/
def FPGA_I2C_ADDRESS_SETTINGS : Nat := 0x0c

def FPGA_I2C_ADDRESS_ROM : Nat := 0x0D

/-- Bulk endpoint addresses. -/
def EP_CMD_IN : Nat := 0x83

def EP_CMD_OUT : Nat := 0x2

def EP_DATA : Nat := 0x81

/-- One USB I/O event, as described in the module docstring. -/
inductive Ev where
  | cw (frame : List Nat) : Ev
  | cr (n : Nat) : Ev
  | clearHalt (ep : Nat) : Ev
deriving DecidableEq

/-- Trace of get_pic_ver: one command write, one 16-byte response read. -/
def get_pic_ver_trace : List Ev :=
  [Ev.cw [HEADER_CMD_BYTE, PIC_CMDS.PIC_VERSION], Ev.cr 16]

/-- i2c_write1(reg, val): a single I2C_WRITE command frame
    [0xC0, I2C_WRITE, 3, SETTINGS<<1, reg, val]; no response read at all. -/
def i2c_write1 (reg val : Nat) : List Ev :=
  [Ev.cw [HEADER_CMD_BYTE, PIC_CMDS.I2C_WRITE, 3,
          FPGA_I2C_ADDRESS_SETTINGS <<< 1, reg, val]]

/-- get_i2c_reg(i2caddr, idx): a seek write [0xC0, I2C_WRITE, 2, addr<<1, idx],
    then a read request [0xC0, I2C_READ, addr, 1], then one 16-byte response
    read; the Python result is y[4] (IndexError modelled as none). -/
def get_i2c_reg (i2caddr idx : Nat) (resp : List Nat) : List Ev × Option Nat :=
  ([Ev.cw [HEADER_CMD_BYTE, PIC_CMDS.I2C_WRITE, 2, i2caddr <<< 1, idx],
    Ev.cw [HEADER_CMD_BYTE, PIC_CMDS.I2C_READ, i2caddr, 1],
    Ev.cr 16],
   resp.get? 4)

/-- get_rom(i, n): rejected locally (bare return, no I/O) when
    i + n > FLASH_USER_ADDRESS_MASK; otherwise one command write, one
    16-byte response read, result y[5:5+n]. -/
def get_rom (i n : Nat) (resp : List Nat) : List Ev × Option (List Nat) :=
  if i + n > FLASH_USER_ADDRESS_MASK then ([], none)
  else
    ([Ev.cw [HEADER_CMD_BYTE, PIC_CMDS.FLASH_ROM_READ,
             i &&& 0xff, n, (i >>> 8) &&& 0xff],
      Ev.cr 16],
     some ((resp.drop 5).take n))

/-- Strict one-write-one-16-byte-read pairing over a command trace: every
    command-out write is immediately followed by exactly one 16-byte read
    from the command-in endpoint before anything else happens. -/
def pairedOk : List Ev → Bool
  | [] => true
  | Ev.cw _ :: Ev.cr 16 :: rest => pairedOk rest
  | _ => false

/-- C1 counterexample: the register-write path (i2c_write1) performs a
    command write with no response read, and the register-read path
    (get_i2c_reg) performs two consecutive command writes before its single
    response read; neither trace is one-write-one-read paired. -/
theorem cmd_pairing_violated :
    pairedOk (i2c_write1 3 0x99) = false ∧
    pairedOk (get_i2c_reg FPGA_I2C_ADDRESS_SETTINGS 0 (List.replicate 16 0)).1
      = false := by
  decide

/-- C1 (amended): the plain query commands (PIC version, in-range flash ROM
    reads) do follow one-write-one-16-byte-read pairing, but the register
    paths do not: i2c_write1 issues exactly one command write and reads no
    response, and get_i2c_reg issues two back-to-back command writes
    followed by exactly one 16-byte response read. -/
theorem cmd_pairing_actual (reg val i2caddr idx : Nat) (resp : List Nat) :
    i2c_write1 reg val
      = [Ev.cw [HEADER_CMD_BYTE, PIC_CMDS.I2C_WRITE, 3,
                FPGA_I2C_ADDRESS_SETTINGS <<< 1, reg, val]] ∧
    (get_i2c_reg i2caddr idx resp).1
      = [Ev.cw [HEADER_CMD_BYTE, PIC_CMDS.I2C_WRITE, 2, i2caddr <<< 1, idx],
         Ev.cw [HEADER_CMD_BYTE, PIC_CMDS.I2C_READ, i2caddr, 1],
         Ev.cr 16] ∧
    pairedOk get_pic_ver_trace = true ∧
    (∀ i n : Nat, i + n ≤ FLASH_USER_ADDRESS_MASK →
      pairedOk (get_rom i n resp).1 = true) := by
  refine ⟨rfl, rfl, rfl, ?_⟩
  intro i n h
  rw [get_rom, if_neg (by omega)]
  rfl

/-- Closed instance of cmd_pairing_actual: an in-range 4-byte ROM read is
    one-write-one-read paired. -/
theorem cmd_pairing_actual_witness :
    pairedOk (get_rom 0 4 (List.replicate 16 0)).1 = true := by
  exact (cmd_pairing_actual 0 0 0 0 (List.replicate 16 0)).2.2.2 0 4 (by decide)

/-- load_blob packet-count operand: cmd = int(plen / PACKSIZE + PADDING) with
    PACKSIZE = 32 and PADDING = 2048/8 = 256.0.  The float arithmetic is
    exact for any realistic blob length, so this is floor division. -/
def startPacketCmd (plen : Nat) : Nat := plen / 32 + 256

/-- The PROGRAM_FPGA_START frame written by load_blob:
    [0xC0, PROGRAM_FPGA_START, cmd >> 8, cmd & 0xff]. -/
def programFpgaStartFrame (plen : Nat) : List Nat :=
  [HEADER_CMD_BYTE, PIC_CMDS.PROGRAM_FPGA_START,
   startPacketCmd plen >>> 8, startPacketCmd plen &&& 0xff]

/-- Modelled from the spec words only, for comparison with the code:
    packet-count = ceil(blobLen/32) + 256. -/
def specStartPacketCount (plen : Nat) : Nat := (plen + 31) / 32 + 256

/-- C3 counterexample: for a blob of length 1 the frame operand decodes to
    256 = floor(1/32) + 256, while the claimed value ceil(1/32) + 256 is
    257; the claim is false at blobLen = 1. -/
theorem programFpgaStart_count_ne_ceil :
    programFpgaStartFrame 1 = [0xC0, 0x0C, 1, 0] ∧
    1 * 256 + 0 = 256 ∧
    specStartPacketCount 1 = 257 ∧
    1 * 256 + 0 ≠ specStartPacketCount 1 := by
  decide

/-- C3 (amended): the PROGRAM_FPGA_START frame carries the packet count
    floor(blobLen/32) + 256, transmitted as a 16-bit big-endian pair, high
    byte then low byte. -/
theorem programFpgaStart_count (plen : Nat) (h : startPacketCmd plen < 65536) :
    programFpgaStartFrame plen
      = [HEADER_CMD_BYTE, PIC_CMDS.PROGRAM_FPGA_START,
         startPacketCmd plen / 256, startPacketCmd plen % 256] ∧
    startPacketCmd plen / 256 < 256 ∧
    startPacketCmd plen % 256 < 256 ∧
    (startPacketCmd plen / 256) * 256 + startPacketCmd plen % 256
      = plen / 32 + 256 := by
  refine ⟨?_, by omega, by omega, by simp only [startPacketCmd]; omega⟩
  have h1 : startPacketCmd plen >>> 8 = startPacketCmd plen / 256 := by
    rw [Nat.shiftRight_eq_div_pow]
  have h2 : startPacketCmd plen &&& 0xff = startPacketCmd plen % 256 := by
    have := Nat.and_pow_two_sub_one_eq_mod (startPacketCmd plen) 8
    simpa using this
  rw [programFpgaStartFrame, h1, h2]

/-- Closed instance of programFpgaStart_count at blob length 64:
    cmd = 258 = 0x0102, sent as bytes 1 then 2. -/
theorem programFpgaStart_count_witness :
    programFpgaStartFrame 64 = [0xC0, 0x0C, 1, 2] := by
  exact (programFpgaStart_count 64 (by decide)).1

-- Header flag bit values (class HDRF).
namespace HDRF

def Acquiring : Nat := 1

def IsOverview : Nat := 2

def IsLastAcquisition : Nat := 4

def Rolling : Nat := 8

def TimedOut : Nat := 16

def AwaitingTrigger : Nat := 32

def Armded : Nat := 64

def IsFullAcqusition : Nat := 128

end HDRF

/-- The three acquisition frame kinds printed in tryread. -/
inductive AcqType where
  | Overview : AcqType
  | Acquisition : AcqType
  | Viewport : AcqType
deriving DecidableEq

/-- Frame classification in tryread: IsOverview first, else IsFullAcqusition,
    else Viewport (Python truthiness of flags & bit is bit-nonzero). -/
def classify (flags : Nat) : AcqType :=
  if flags &&& HDRF.IsOverview ≠ 0 then AcqType.Overview
  else if flags &&& HDRF.IsFullAcqusition ≠ 0 then AcqType.Acquisition
  else AcqType.Viewport

/-- C4: classification checks IsOverview first and it wins even when
    IsFullAcqusition is also set; otherwise a set IsFullAcqusition bit gives
    Acquisition; otherwise Viewport.  In particular a header with both bits
    set classifies as Overview. -/
theorem classify_precedence (flags : Nat) :
    (flags &&& HDRF.IsOverview ≠ 0 → classify flags = AcqType.Overview) ∧
    (flags &&& HDRF.IsOverview = 0 → flags &&& HDRF.IsFullAcqusition ≠ 0 →
      classify flags = AcqType.Acquisition) ∧
    (flags &&& HDRF.IsOverview = 0 → flags &&& HDRF.IsFullAcqusition = 0 →
      classify flags = AcqType.Viewport) ∧
    classify (HDRF.IsOverview ||| HDRF.IsFullAcqusition) = AcqType.Overview := by
  refine ⟨?_, ?_, ?_, by decide⟩
  · intro h; simp [classify, h]
  · intro h1 h2; simp [classify, h1, h2]
  · intro h1 h2; simp [classify, h1, h2]

/-- Closed instance of classify_precedence: flags = 0x82 (IsOverview and
    IsFullAcqusition both set) classifies as Overview. -/
theorem classify_precedence_witness : classify 0x82 = AcqType.Overview := by
  exact (classify_precedence 0x82).1 (by decide)

/-- C7: get_i2c_reg writes the I2C_WRITE seek frame (addr<<1, reg, length
    operand 2, so zero data bytes), then the I2C_READ frame (addr, len 1),
    then reads one 16-byte response and returns its byte at offset 4. -/
theorem get_i2c_reg_spec (i2caddr idx : Nat) (resp : List Nat)
    (h : resp.length = 16) :
    get_i2c_reg i2caddr idx resp
      = ([Ev.cw [HEADER_CMD_BYTE, PIC_CMDS.I2C_WRITE, 2, i2caddr <<< 1, idx],
          Ev.cw [HEADER_CMD_BYTE, PIC_CMDS.I2C_READ, i2caddr, 1],
          Ev.cr 16],
         some (resp.get ⟨4, by omega⟩)) := by
  rw [get_i2c_reg, List.get?_eq_get (by omega : 4 < resp.length)]

/-- Closed instance of get_i2c_reg_spec on a synthetic 16-byte response with
    0xAB at offset 4: the returned byte is 0xAB. -/
theorem get_i2c_reg_spec_witness :
    get_i2c_reg FPGA_I2C_ADDRESS_ROM 0
        [0, 1, 2, 3, 0xAB, 5, 6, 7, 8, 9, 10, 11, 12, 13, 14, 15]
      = ([Ev.cw [0xC0, 10, 2, 0x1A, 0], Ev.cw [0xC0, 11, 0x0D, 1], Ev.cr 16],
         some 0xAB) := by
  exact get_i2c_reg_spec FPGA_I2C_ADDRESS_ROM 0
    [0, 1, 2, 3, 0xAB, 5, 6, 7, 8, 9, 10, 11, 12, 13, 14, 15] (by decide)

/-- C8 counterexample: the request i = 0x0FFF, n = 1 reads only address
    0x0FFF, which lies inside 0x0000..0x0FFF, yet get_rom rejects it with no
    I/O because its guard is i + n > 0x0FFF rather than i + n > 0x1000. -/
theorem get_rom_boundary_rejected :
    0x0FFF + 1 - 1 ≤ FLASH_USER_ADDRESS_MASK ∧
    get_rom 0x0FFF 1 (List.replicate 16 0) = ([], none) := by
  decide

/-- C8 (amended): get_rom rejects locally, with no I/O, exactly when
    i + n > 0x0FFF (so the last readable byte is 0x0FFE); any request with
    i + n <= 0x0FFF performs exactly one command write and one 16-byte
    response read and returns the n payload bytes starting at offset 5. -/
theorem get_rom_spec (i n : Nat) (resp : List Nat) :
    (i + n > FLASH_USER_ADDRESS_MASK → get_rom i n resp = ([], none)) ∧
    (i + n ≤ FLASH_USER_ADDRESS_MASK →
      get_rom i n resp
        = ([Ev.cw [HEADER_CMD_BYTE, PIC_CMDS.FLASH_ROM_READ,
                   i &&& 0xff, n, (i >>> 8) &&& 0xff],
            Ev.cr 16],
           some ((resp.drop 5).take n))) := by
  constructor
  · intro h
    rw [get_rom, if_pos h]
  · intro h
    rw [get_rom, if_neg (by omega)]

/-- Closed instance of get_rom_spec: the in-range request i = 2, n = 3 on a
    synthetic response returns response bytes 5..7. -/
theorem get_rom_spec_witness :
    get_rom 2 3 [0, 1, 2, 3, 4, 5, 6, 7, 8, 9, 10, 11, 12, 13, 14, 15]
      = ([Ev.cw [0xC0, 8, 2, 3, 0], Ev.cr 16], some [5, 6, 7]) := by
  have h := (get_rom_spec 2 3
    [0, 1, 2, 3, 4, 5, 6, 7, 8, 9, 10, 11, 12, 13, 14, 15]).2 (by decide)
  simpa using h

-- FPGA settings register identifiers (class REG, an IntEnum).
namespace REG

def STROBE_UPDATE : Nat := 0

def SPI_ADDRESS : Nat := 1

def SPI_WRITE_VALUE : Nat := 2

def DIVIDER_MULTIPLIER : Nat := 3

def CHA_YOFFSET_VOLTAGE : Nat := 4

def CHB_YOFFSET_VOLTAGE : Nat := 5

def TRIGGER_PWM : Nat := 6

def TRIGGER_LEVEL : Nat := 7

def TRIGGER_MODE : Nat := 8

def TRIGGER_PW_MIN_B0 : Nat := 9

def TRIGGER_PW_MIN_B1 : Nat := 10

def TRIGGER_PW_MIN_B2 : Nat := 11

def TRIGGER_PW_MAX_B0 : Nat := 12

def TRIGGER_PW_MAX_B1 : Nat := 13

def TRIGGER_PW_MAX_B2 : Nat := 14

def INPUT_DECIMATION : Nat := 15

def ACQUISITION_DEPTH : Nat := 16

def TRIGGERHOLDOFF_B0 : Nat := 17

def TRIGGERHOLDOFF_B1 : Nat := 18

def TRIGGERHOLDOFF_B2 : Nat := 19

def TRIGGERHOLDOFF_B3 : Nat := 20

def VIEW_DECIMATION : Nat := 21

def VIEW_OFFSET_B0 : Nat := 22

def VIEW_OFFSET_B1 : Nat := 23

def VIEW_OFFSET_B2 : Nat := 24

def VIEW_ACQUISITIONS : Nat := 25

def VIEW_BURSTS : Nat := 26

def VIEW_EXCESS_B0 : Nat := 27

def VIEW_EXCESS_B1 : Nat := 28

def DIGITAL_TRIGGER_RISING : Nat := 29

def DIGITAL_TRIGGER_FALLING : Nat := 30

def DIGITAL_TRIGGER_HIGH : Nat := 31

def DIGITAL_TRIGGER_LOW : Nat := 32

def DIGITAL_OUT : Nat := 33

def GENERATOR_DECIMATION_B0 : Nat := 34

def GENERATOR_DECIMATION_B1 : Nat := 35

def GENERATOR_DECIMATION_B2 : Nat := 36

def GENERATOR_SAMPLES_B0 : Nat := 37

def GENERATOR_SAMPLES_B1 : Nat := 38

end REG

/-- The static register-to-header-offset table rmap inside REG2HREG. -/
def rmap : List (Nat × Nat) :=
  [(REG.TRIGGER_LEVEL, 0),
   (REG.TRIGGER_MODE, 1),
   (REG.TRIGGERHOLDOFF_B0, 2),
   (REG.TRIGGERHOLDOFF_B1, 3),
   (REG.TRIGGERHOLDOFF_B2, 4),
   (REG.TRIGGERHOLDOFF_B3, 5),
   (REG.CHA_YOFFSET_VOLTAGE, 6),
   (REG.CHB_YOFFSET_VOLTAGE, 7),
   (REG.DIVIDER_MULTIPLIER, 8),
   (REG.INPUT_DECIMATION, 9),
   (REG.TRIGGER_PW_MIN_B0, 10),
   (REG.TRIGGER_PW_MIN_B1, 11),
   (REG.TRIGGER_PW_MIN_B2, 12),
   (REG.TRIGGER_PW_MAX_B0, 13),
   (REG.TRIGGER_PW_MAX_B1, 14),
   (REG.TRIGGER_PW_MAX_B2, 15),
   (REG.TRIGGER_PWM, 16),
   (REG.DIGITAL_TRIGGER_RISING, 17),
   (REG.DIGITAL_TRIGGER_FALLING, 18),
   (REG.DIGITAL_TRIGGER_HIGH, 19),
   (REG.DIGITAL_TRIGGER_LOW, 20),
   (REG.ACQUISITION_DEPTH, 21),
   (REG.VIEW_DECIMATION, 22),
   (REG.VIEW_OFFSET_B0, 23),
   (REG.VIEW_OFFSET_B1, 24),
   (REG.VIEW_OFFSET_B2, 25),
   (REG.VIEW_ACQUISITIONS, 26),
   (REG.VIEW_BURSTS, 27),
   (REG.VIEW_EXCESS_B0, 28),
   (REG.VIEW_EXCESS_B1, 29)]

/-- REG2HREG(reg): filter rmap on the first component; if not exactly one
    match, raise (modelled as none); else return the matched offset. -/
def REG2HREG (reg : Nat) : Option Nat :=
  let ms := rmap.filter (fun x => x.1 == reg)
  if ms.length = 1 then ms.head?.map Prod.snd else none

lemma filter_fst_eq_nil {l : List (Nat × Nat)} {r : Nat}
    (h : r ∉ l.map Prod.fst) :
    l.filter (fun x => x.1 == r) = [] := by
  rw [List.filter_eq_nil_iff]
  intro a ha
  simp only [beq_iff_eq]
  intro hx
  exact h (List.mem_map.mpr ⟨a, ha, hx⟩)

lemma filter_fst_nodup {l : List (Nat × Nat)}
    (hn : (l.map Prod.fst).Nodup) {r o : Nat} (hm : (r, o) ∈ l) :
    l.filter (fun x => x.1 == r) = [(r, o)] := by
  induction l with
  | nil => cases hm
  | cons a t ih =>
    simp only [List.map_cons, List.nodup_cons] at hn
    rcases List.mem_cons.mp hm with heq | ht
    · subst heq
      rw [List.filter_cons_of_pos (by simp)]
      rw [filter_fst_eq_nil hn.1]
    · have hne : a.1 ≠ r := by
        intro hx
        exact hn.1 (hx ▸ List.mem_map.mpr ⟨(r, o), ht, rfl⟩)
      rw [List.filter_cons_of_neg (by simpa using hne)]
      exact ih hn.2 ht

/-- C5: REG2HREG succeeds, returning the tabulated offset, exactly for the
    registers present in rmap (matching exactly one entry since the keys are
    distinct), and fails (raises, modelled none) for every other register
    identifier; the lookup is pure, so the failure happens before any I/O. -/
theorem REG2HREG_spec (r : Nat) :
    (REG2HREG r = none ↔ r ∉ rmap.map Prod.fst) ∧
    (∀ o : Nat, REG2HREG r = some o ↔ (r, o) ∈ rmap) := by
  have hn : (rmap.map Prod.fst).Nodup := by decide
  by_cases hr : r ∈ rmap.map Prod.fst
  · have hex : ∃ o : Nat, (r, o) ∈ rmap := by
      obtain ⟨⟨a, b⟩, hab, hfst⟩ := List.mem_map.mp hr
      have ha : a = r := hfst
      subst ha
      exact ⟨b, hab⟩
    obtain ⟨o', hmem⟩ := hex
    have hf : rmap.filter (fun x => x.1 == r) = [(r, o')] :=
      filter_fst_nodup hn hmem
    constructor
    · rw [REG2HREG]
      simp [hf, hr]
    · intro o
      rw [REG2HREG]
      simp only [hf, List.length_singleton, if_pos rfl, List.head?_cons,
        Option.map_some]
      constructor
      · intro h
        have ho : o' = o := by simpa using h
        exact ho ▸ hmem
      · intro h
        have h2 := filter_fst_nodup hn h
        rw [hf] at h2
        have ho : o' = o := by simpa using h2
        simp [ho]
  · have hf : rmap.filter (fun x => x.1 == r) = [] := filter_fst_eq_nil hr
    constructor
    · rw [REG2HREG]
      simp [hf, hr]
    · intro o
      rw [REG2HREG]
      simp only [hf]
      constructor
      · intro h
        simp at h
      · intro h
        exact absurd (List.mem_map.mpr ⟨(r, o), h, rfl⟩) hr

/-- Closed instance of REG2HREG_spec: TRIGGER_LEVEL maps to header offset 0
    and STROBE_UPDATE (not a header register) fails. -/
theorem REG2HREG_spec_witness :
    REG2HREG REG.TRIGGER_LEVEL = some 0 ∧ REG2HREG REG.STROBE_UPDATE = none := by
  constructor
  · exact ((REG2HREG_spec REG.TRIGGER_LEVEL).2 0).mpr (by decide)
  · exact (REG2HREG_spec REG.STROBE_UPDATE).1.mpr (by decide)

/-- CONSTANTS.validDividers = [1, 6, 36]. -/
def validDividers : List Nat := [1, 6, 36]

/-- CONSTANTS.validMultipliers = [1.1, 2, 3]; the decimal literals are
    modelled as exact rationals, which does not affect which entry each
    2-bit index selects. -/
def validMultipliers : List ℚ := [11 / 10, 2, 3]

/-- The per-channel decode in tryread (ch = 0 for CHA, 1 for CHB):
    div = validDividers[divmul >> (0 + ch*4) & 0x3],
    mul = validMultipliers[divmul >> (2 + ch*4) & 0x3].
    A Python IndexError (index past the 3-entry tables) is none. -/
def decodeDivMul (divmul ch : Nat) : Option (Nat × ℚ) :=
  match validDividers.get? (divmul >>> (0 + ch * 4) &&& 0x3) with
  | none => none
  | some d =>
    match validMultipliers.get? (divmul >>> (2 + ch * 4) &&& 0x3) with
    | none => none
    | some m => some (d, m)

lemma decodeDivMul_eq_some {b ch d : Nat} {m : ℚ}
    (h : decodeDivMul b ch = some (d, m)) :
    validDividers.get? (b >>> (0 + ch * 4) &&& 0x3) = some d ∧
    validMultipliers.get? (b >>> (2 + ch * 4) &&& 0x3) = some m := by
  unfold decodeDivMul at h
  cases hg1 : validDividers.get? (b >>> (0 + ch * 4) &&& 0x3) with
  | none =>
    rw [hg1] at h
    cases h
  | some d' =>
    rw [hg1] at h
    cases hg2 : validMultipliers.get? (b >>> (2 + ch * 4) &&& 0x3) with
    | none =>
      rw [hg2] at h
      cases h
    | some m' =>
      rw [hg2] at h
      have hd : d' = d := by simpa using congrArg (fun x => x.map Prod.fst) h
      have hm : m' = m := by simpa using congrArg (fun x => x.map Prod.snd) h
      subst hd
      subst hm
      exact ⟨rfl, rfl⟩

/-- C9: channel A decodes its divider from bits 0-1 and its multiplier from
    bits 2-3, channel B from bits 4-5 and 6-7, each 2-bit field indexing the
    fixed tables [1, 6, 36] and [1.1, 2, 3]; any value produced comes from
    those tables, and the byte 0x99 decodes deterministically per channel to
    divider 6, multiplier 3 on both channels. -/
theorem divmul_decode_fields (b : Nat) :
    (∀ (d : Nat) (m : ℚ), decodeDivMul b 0 = some (d, m) →
      validDividers.get? (b &&& 0x3) = some d ∧
      validMultipliers.get? (b >>> 2 &&& 0x3) = some m ∧
      d ∈ validDividers ∧ m ∈ validMultipliers) ∧
    (∀ (d : Nat) (m : ℚ), decodeDivMul b 1 = some (d, m) →
      validDividers.get? (b >>> 4 &&& 0x3) = some d ∧
      validMultipliers.get? (b >>> 6 &&& 0x3) = some m ∧
      d ∈ validDividers ∧ m ∈ validMultipliers) ∧
    decodeDivMul 0x99 0 = some (6, 3) ∧
    decodeDivMul 0x99 1 = some (6, 3) := by
  refine ⟨?_, ?_, by decide, by decide⟩
  · intro d m h
    have h2 := decodeDivMul_eq_some h
    rw [show (0 : Nat) + 0 * 4 = 0 by norm_num,
        show (2 : Nat) + 0 * 4 = 2 by norm_num, Nat.shiftRight_zero] at h2
    exact ⟨h2.1, h2.2, List.get?_mem h2.1, List.get?_mem h2.2⟩
  · intro d m h
    have h2 := decodeDivMul_eq_some h
    rw [show (0 : Nat) + 1 * 4 = 4 by norm_num,
        show (2 : Nat) + 1 * 4 = 6 by norm_num] at h2
    exact ⟨h2.1, h2.2, List.get?_mem h2.1, List.get?_mem h2.2⟩

/-- Closed instance of divmul_decode_fields: the 0x99 decode for channel A
    selects divider 6 and multiplier 3. -/
theorem divmul_decode_fields_witness :
    decodeDivMul 0x99 0 = some (6, 3) := by
  exact (divmul_decode_fields 0).2.2.1

/-- C10: for each channel the decode returns a value exactly when both of
    its 2-bit fields lie in {0, 1, 2}; a field equal to 3 indexes past the
    end of the 3-entry tables and the decode fails (IndexError, none). -/
theorem divmul_decode_fails_on_3 (b ch : Nat) (_hch : ch < 2) :
    decodeDivMul b ch = none ↔
      (b >>> (0 + ch * 4) &&& 0x3 = 3 ∨ b >>> (2 + ch * 4) &&& 0x3 = 3) := by
  have h1 : b >>> (0 + ch * 4) &&& 0x3 ≤ 3 := Nat.and_le_right
  have h2 : b >>> (2 + ch * 4) &&& 0x3 ≤ 3 := Nat.and_le_right
  unfold decodeDivMul
  have e1 : b >>> (0 + ch * 4) &&& 0x3 = 0 ∨ b >>> (0 + ch * 4) &&& 0x3 = 1 ∨
      b >>> (0 + ch * 4) &&& 0x3 = 2 ∨ b >>> (0 + ch * 4) &&& 0x3 = 3 := by
    omega
  have e2 : b >>> (2 + ch * 4) &&& 0x3 = 0 ∨ b >>> (2 + ch * 4) &&& 0x3 = 1 ∨
      b >>> (2 + ch * 4) &&& 0x3 = 2 ∨ b >>> (2 + ch * 4) &&& 0x3 = 3 := by
    omega
  rcases e1 with he1 | he1 | he1 | he1 <;>
    rcases e2 with he2 | he2 | he2 | he2 <;>
      rw [he1, he2] <;> simp [validDividers, validMultipliers]

/-- Closed instance of divmul_decode_fails_on_3: byte 0x03 has the channel A
    divider field equal to 3, so its channel A decode fails. -/
theorem divmul_decode_fails_on_3_witness :
    decodeDivMul 0x03 0 = none := by
  exact (divmul_decode_fails_on_3 0x03 0 (by decide)).mpr (Or.inl (by decide))

/-- The two magic bytes "LN" that open a valid acquisition header. -/
def LN_MAGIC : List Nat := [76, 78]

/-- PACKAGE_MAX = 64, the retry bound in get_acquisition. -/
def PACKAGE_MAX : Nat := 64

/-- SZ_HDR = 64, the header read size. -/
def SZ_HDR : Nat := 64

/-- The loop of get_acquisition.  stream k is the contents of the k-th
    64-byte read from the data endpoint.  Each iteration reads one header
    candidate; if its first two bytes are "LN" it is returned, otherwise
    tries is incremented and the raise at tries > PACKAGE_MAX is modelled
    as none. -/
def seekLoop (stream : Nat → List Nat) (idx tries : Nat) : Option (List Nat) :=
  if (stream idx).take 2 = LN_MAGIC then some (stream idx)
  else if tries + 1 > PACKAGE_MAX then none
  else seekLoop stream (idx + 1) (tries + 1)
termination_by PACKAGE_MAX + 1 - tries
decreasing_by simp only [PACKAGE_MAX] at *; omega

/-- get_acquisition: run the seek loop from the first read with tries = 0. -/
def get_acquisition (stream : Nat → List Nat) : Option (List Nat) :=
  seekLoop stream 0 0

lemma seekLoop_none_iff (stream : Nat → List Nat) :
    ∀ (k idx tries : Nat), tries + k = PACKAGE_MAX →
      (seekLoop stream idx tries = none ↔
        ∀ j ≤ k, (stream (idx + j)).take 2 ≠ LN_MAGIC) := by
  intro k
  induction k with
  | zero =>
    intro idx tries htr
    rw [seekLoop]
    by_cases hm : (stream idx).take 2 = LN_MAGIC
    · rw [if_pos hm]
      constructor
      · intro h
        simp at h
      · intro h
        exact absurd hm (by simpa using h 0 (le_refl 0))
    · have hgt : tries + 1 > PACKAGE_MAX := by omega
      rw [if_neg hm, if_pos hgt]
      constructor
      · intro _ j hj
        have hj0 : j = 0 := Nat.le_zero.mp hj
        subst hj0
        simpa using hm
      · intro _
        rfl
  | succ k ih =>
    intro idx tries htr
    rw [seekLoop]
    by_cases hm : (stream idx).take 2 = LN_MAGIC
    · rw [if_pos hm]
      constructor
      · intro h
        simp at h
      · intro h
        exact absurd hm (by simpa using h 0 (by omega))
    · have hle : ¬ tries + 1 > PACKAGE_MAX := by
        simp only [PACKAGE_MAX] at htr ⊢
        omega
      rw [if_neg hm, if_neg hle, ih (idx + 1) (tries + 1) (by omega)]
      constructor
      · intro h j hj
        rcases Nat.eq_zero_or_pos j with h0 | hpos
        · subst h0
          simpa using hm
        · obtain ⟨j', rfl⟩ : ∃ j', j = j' + 1 := ⟨j - 1, by omega⟩
          have hh := h j' (by omega)
          have he : idx + 1 + j' = idx + (j' + 1) := by omega
          rw [he] at hh
          exact hh
      · intro h j hj
        have hh := h (j + 1) (by omega)
        have he : idx + (j + 1) = idx + 1 + j := by omega
        rw [he] at hh
        exact hh

/-- C2: get_acquisition raises (SyncError, modelled none) exactly when the
    first 65 reads (indices 0..64 = PACKAGE_MAX) all fail the "LN" magic
    check: 65 consecutive non-matching 64-byte reads produce the error, and
    if any of the first 65 reads matches (64 or fewer non-matching reads)
    no error is raised. -/
theorem get_acquisition_syncError_iff (stream : Nat → List Nat) :
    get_acquisition stream = none ↔
      ∀ j ≤ PACKAGE_MAX, (stream j).take 2 ≠ LN_MAGIC := by
  have h := seekLoop_none_iff stream PACKAGE_MAX 0 0 (by omega)
  rw [get_acquisition, h]
  constructor
  · intro hh j hj
    simpa using hh j hj
  · intro hh j hj
    simpa using hh j hj

/-- Closed instance of get_acquisition_syncError_iff: a stream whose reads
    never start with "LN" makes get_acquisition fail with SyncError. -/
theorem get_acquisition_syncError_iff_witness :
    get_acquisition (fun _ => [0, 0, 0]) = none := by
  refine (get_acquisition_syncError_iff (fun _ => [0, 0, 0])).mpr ?_
  intro j hj
  decide

/-- The chunking loop of load_blob: successive 2048-byte slices of the blob
    until it is exhausted (chunk, rem = blob[:2048], blob[2048:]). -/
def chunkBlob (blob : List Nat) : List (List Nat) :=
  if blob = [] then []
  else blob.take 2048 :: chunkBlob (blob.drop 2048)
termination_by blob.length
decreasing_by
  simp only [List.length_drop]
  have hp : 0 < blob.length := List.length_pos.mpr (by assumption)
  omega

/-- The padding writes of load_blob: 256 chunks of 32 bytes of 0xFF
    (for i in range(int(PADDING)): write([0xff] * 32)). -/
def paddingWrites : List (List Nat) := List.replicate 256 (List.replicate 32 0xFF)

/-- The full write trace of load_blob for a blob already read from disk:
    PROGRAM_FPGA_START with the packet-count operand, a halt clear on the
    data endpoint, the 2048-byte chunks, the 0xFF padding, PROGRAM_FPGA_END
    and a final halt clear. -/
def load_blob_trace (blob : List Nat) : List Ev :=
  Ev.cw (programFpgaStartFrame blob.length) :: Ev.clearHalt EP_DATA ::
    ((chunkBlob blob).map Ev.cw ++ paddingWrites.map Ev.cw ++
      [Ev.cw [HEADER_CMD_BYTE, PIC_CMDS.PROGRAM_FPGA_END], Ev.clearHalt EP_DATA])

lemma chunkBlob_nil : chunkBlob [] = [] := by
  rw [chunkBlob]
  simp

lemma chunkBlob_ne_nil (blob : List Nat) (h : blob ≠ []) :
    chunkBlob blob = blob.take 2048 :: chunkBlob (blob.drop 2048) := by
  rw [chunkBlob]
  simp [h]

lemma chunkBlob_flatten (blob : List Nat) : (chunkBlob blob).flatten = blob := by
  suffices H : ∀ (n : Nat) (b : List Nat), b.length ≤ n →
      (chunkBlob b).flatten = b from H blob.length blob le_rfl
  intro n
  induction n with
  | zero =>
    intro b hb
    have hbn : b = [] := List.length_eq_zero.mp (Nat.le_zero.mp hb)
    subst hbn
    simp [chunkBlob_nil]
  | succ n ih =>
    intro b hb
    by_cases h : b = []
    · subst h
      simp [chunkBlob_nil]
    · rw [chunkBlob_ne_nil b h]
      have hp : 0 < b.length := List.length_pos.mpr h
      have hd : (b.drop 2048).length ≤ n := by
        simp only [List.length_drop]
        omega
      simp only [List.flatten_cons]
      rw [ih _ hd]
      exact List.take_append_drop 2048 b

lemma chunkBlob_length (blob : List Nat) :
    (chunkBlob blob).length = (blob.length + 2047) / 2048 := by
  suffices H : ∀ (n : Nat) (b : List Nat), b.length ≤ n →
      (chunkBlob b).length = (b.length + 2047) / 2048 from
    H blob.length blob le_rfl
  intro n
  induction n with
  | zero =>
    intro b hb
    have hbn : b = [] := List.length_eq_zero.mp (Nat.le_zero.mp hb)
    subst hbn
    simp [chunkBlob_nil]
  | succ n ih =>
    intro b hb
    by_cases h : b = []
    · subst h
      simp [chunkBlob_nil]
    · rw [chunkBlob_ne_nil b h]
      have hp : 0 < b.length := List.length_pos.mpr h
      have hd : (b.drop 2048).length ≤ n := by
        simp only [List.length_drop]
        omega
      simp only [List.length_cons, ih _ hd, List.length_drop]
      omega

lemma chunkBlob_last (blob : List Nat) :
    ((chunkBlob blob).getLast?).map List.length
      = if blob.length = 0 then none
        else some (if blob.length % 2048 = 0 then 2048 else blob.length % 2048) := by
  suffices H : ∀ (n : Nat) (b : List Nat), b.length ≤ n →
      ((chunkBlob b).getLast?).map List.length
        = if b.length = 0 then none
          else some (if b.length % 2048 = 0 then 2048 else b.length % 2048) from
    H blob.length blob le_rfl
  intro n
  induction n with
  | zero =>
    intro b hb
    have hbn : b = [] := List.length_eq_zero.mp (Nat.le_zero.mp hb)
    subst hbn
    simp [chunkBlob_nil]
  | succ n ih =>
    intro b hb
    by_cases h : b = []
    · subst h
      simp [chunkBlob_nil]
    · rw [chunkBlob_ne_nil b h]
      have hp : 0 < b.length := List.length_pos.mpr h
      by_cases hd : b.drop 2048 = []
      · have hle : b.length ≤ 2048 := by
          have := List.drop_eq_nil_iff.mp hd
          omega
        rw [hd, chunkBlob_nil]
        rw [List.getLast?_singleton]
        have hmap : Option.map List.length (some (List.take 2048 b))
            = some (List.take 2048 b).length := rfl
        rw [hmap, List.length_take, if_neg (by omega)]
        have htk : (2048 : Nat) ⊓ b.length = b.length := inf_eq_right.mpr hle
        rw [htk]
        by_cases hm : b.length % 2048 = 0
        · rw [if_pos hm]
          have : b.length = 2048 := by omega
          rw [this]
        · rw [if_neg hm]
          have : b.length % 2048 = b.length := by omega
          rw [this]
      · have hgt : 2048 < b.length := by
          have : ¬ b.length ≤ 2048 := fun hc =>
            hd (List.drop_eq_nil_iff.mpr hc)
          omega
        have hdl : (b.drop 2048).length ≤ n := by
          simp only [List.length_drop]
          omega
        have ihd := ih _ hdl
        rw [chunkBlob_ne_nil _ hd] at ihd ⊢
        rw [List.getLast?_cons_cons]
        rw [ihd]
        simp only [List.length_drop]
        have hmod : (b.length - 2048) % 2048 = b.length % 2048 := by omega
        rw [hmod]
        rw [if_neg (show ¬ b.length - 2048 = 0 by omega),
            if_neg (show ¬ b.length = 0 by omega)]

/-- C6: load_blob writes the blob in 2048-byte chunks: the chunks
    concatenate back to the blob, their count is ceil(L/2048), the final
    chunk has length L mod 2048 (or 2048 when L is an exact multiple), and
    the upload is padded with exactly 256 chunks of 32 bytes of 0xFF. -/
theorem load_blob_chunking (blob : List Nat) :
    (chunkBlob blob).length = (blob.length + 2047) / 2048 ∧
    (chunkBlob blob).flatten = blob ∧
    ((chunkBlob blob).getLast?).map List.length
      = (if blob.length = 0 then none
         else some (if blob.length % 2048 = 0 then 2048
                    else blob.length % 2048)) ∧
    paddingWrites.length = 256 ∧
    (∀ c ∈ paddingWrites, c.length = 32 ∧ ∀ x ∈ c, x = 0xFF) := by
  refine ⟨chunkBlob_length blob, chunkBlob_flatten blob, chunkBlob_last blob,
    by rw [paddingWrites, List.length_replicate], ?_⟩
  intro c hc
  have hc2 : c = List.replicate 32 0xFF := List.eq_of_mem_replicate hc
  subst hc2
  exact ⟨List.length_replicate 32 0xFF, fun x hx => List.eq_of_mem_replicate hx⟩

/-- Closed instance of load_blob_chunking: a 3-byte blob is written as one
    chunk equal to the blob itself. -/
theorem load_blob_chunking_witness :
    (chunkBlob [1, 2, 3]).flatten = [1, 2, 3] := by
  exact (load_blob_chunking [1, 2, 3]).2.1

end LNSS
